import Mathlib

/-!
Verification development for the slogx Rust SDK (`src/sdk/rust/src/lib.rs`).

The development shallowly embeds the SDK's data model and operations:

* `Value` models `serde_json::Value` (numbers are modelled as integers;
  serde_json's floating-point numbers are outside the model; maps are
  insertion-ordered association lists).
* `renderValue` / `parseValue` model `serde_json::to_string` / `from_str`
  for the compact output `to_string` produces (no insignificant whitespace).
* `build_clean_stacktrace` models the frame-filtering stack capture, over an
  abstract list of frames; the capture mechanism itself (`Backtrace::new`) is
  treated as an environment input, read deterministically.
* `LogEntry.new` and `SlogX.log` model the record builder and the broadcast
  path, instrumented with counters for stack captures and serializations and
  with the list of pushed frames, so that effect claims become statements
  about the returned record.
-/

/-- Model of `serde_json::Value`: a JSON-like tagged union.  Numbers are
modelled as integers; objects are insertion-ordered association lists. -/
inductive Value where
  | null
  | bool (b : Bool)
  | num (n : Int)
  | str (s : String)
  | arr (xs : List Value)
  | obj (fields : List (String × Value))

/-- Decimal digits of `n`, most significant first, computed with explicit
fuel (any fuel above `n` yields the digits of `n`). -/
def natToDigits : Nat → Nat → List Char
  | 0, _ => []
  | fuel+1, n =>
    if n < 10 then [Nat.digitChar n]
    else natToDigits fuel (n / 10) ++ [Nat.digitChar (n % 10)]

/-- Decimal rendering of a natural number, as a character list. -/
def renderNat (n : Nat) : List Char :=
  natToDigits (n + 1) n

/-- Decimal rendering of an integer (´-´ sign for negatives), as
`serde_json` prints integer numbers. -/
def renderInt (n : Int) : List Char :=
  if n < 0 then '-' :: renderNat n.natAbs else renderNat n.toNat

/-- Hex digit for a value below 16 (lower case letters), as used by
`serde_json`'s `\u00XX` escapes. -/
def hexDigit (n : Nat) : Char := Nat.digitChar n

/-- JSON string escaping of one character, exactly as `serde_json` escapes
strings: quote, backslash, the short control escapes, `\u00XX` for the other
control characters, and everything else emitted raw. -/
def escapeChar (c : Char) : List Char :=
  if c = '"' then ['\\', '"']
  else if c = '\\' then ['\\', '\\']
  else if c = '\x08' then ['\\', 'b']
  else if c = '\t' then ['\\', 't']
  else if c = '\n' then ['\\', 'n']
  else if c = '\x0c' then ['\\', 'f']
  else if c = '\r' then ['\\', 'r']
  else if c.toNat < 32 then
    ['\\', 'u', '0', '0', hexDigit (c.toNat / 16), hexDigit (c.toNat % 16)]
  else [c]

/-- JSON string escaping of a character list. -/
def escapeList : List Char → List Char
  | [] => []
  | c :: cs => escapeChar c ++ escapeList cs

mutual

/-- Compact JSON rendering of a `Value`, as produced by
`serde_json::to_string`. -/
def renderValue : Value → List Char
  | .null => 'n' :: ['u', 'l', 'l']
  | .bool true => 't' :: ['r', 'u', 'e']
  | .bool false => 'f' :: ['a', 'l', 's', 'e']
  | .num n => renderInt n
  | .str s => '"' :: (escapeList s.data ++ ['"'])
  | .arr xs => '[' :: (renderArray xs ++ [']'])
  | .obj fs => '\x7b' :: (renderObject fs ++ ['\x7d'])

/-- Comma-separated rendering of array elements. -/
def renderArray : List Value → List Char
  | [] => []
  | [x] => renderValue x
  | x :: y :: xs => renderValue x ++ ',' :: renderArray (y :: xs)

/-- Comma-separated rendering of object members (`"key":value`). -/
def renderObject : List (String × Value) → List Char
  | [] => []
  | [(k, v)] => '"' :: (escapeList k.data ++ '"' :: ':' :: renderValue v)
  | (k, v) :: m :: fs =>
    ('"' :: (escapeList k.data ++ '"' :: ':' :: renderValue v))
      ++ ',' :: renderObject (m :: fs)

end

/-- Value of a hex digit character, `none` for non-hex characters. -/
def hexVal (c : Char) : Option Nat :=
  if '0' ≤ c ∧ c ≤ '9' then some (c.toNat - 48)
  else if 'a' ≤ c ∧ c ≤ 'f' then some (c.toNat - 87)
  else if 'A' ≤ c ∧ c ≤ 'F' then some (c.toNat - 55)
  else none

/-- Parse the body of a JSON string literal (after the opening quote),
returning the decoded characters and the input after the closing quote. -/
def parseStringBody : List Char → Option (List Char × List Char)
  | [] => none
  | c :: rest =>
    if c = '"' then some ([], rest)
    else if c = '\\' then
      match rest with
      | [] => none
      | e :: rest2 =>
        if e = '"' then (parseStringBody rest2).map (fun p => ('"' :: p.1, p.2))
        else if e = '\\' then (parseStringBody rest2).map (fun p => ('\\' :: p.1, p.2))
        else if e = 'b' then (parseStringBody rest2).map (fun p => ('\x08' :: p.1, p.2))
        else if e = 't' then (parseStringBody rest2).map (fun p => ('\t' :: p.1, p.2))
        else if e = 'n' then (parseStringBody rest2).map (fun p => ('\n' :: p.1, p.2))
        else if e = 'f' then (parseStringBody rest2).map (fun p => ('\x0c' :: p.1, p.2))
        else if e = 'r' then (parseStringBody rest2).map (fun p => ('\r' :: p.1, p.2))
        else if e = 'u' then
          match rest2 with
          | h1 :: h2 :: h3 :: h4 :: rest3 =>
            match hexVal h1, hexVal h2, hexVal h3, hexVal h4 with
            | some a, some b, some c2, some d =>
              (parseStringBody rest3).map
                (fun p => (Char.ofNat (4096 * a + 256 * b + 16 * c2 + d) :: p.1, p.2))
            | _, _, _, _ => none
          | _ => none
        else none
    else (parseStringBody rest).map (fun p => (c :: p.1, p.2))

/-- Parse a run of decimal digits, accumulating into `acc`; stops at the
first non-digit character. -/
def parseDigits : List Char → Nat → Nat × List Char
  | [], acc => (acc, [])
  | c :: rest, acc =>
    if c.isDigit then parseDigits rest (acc * 10 + (c.toNat - 48))
    else (acc, c :: rest)

mutual

/-- Fuel-indexed parser for compact JSON values, modelling
`serde_json::from_str` on the output format of `serde_json::to_string`. -/
def parseValue : Nat → List Char → Option (Value × List Char)
  | 0, _ => none
  | fuel+1, input =>
    match input with
    | [] => none
    | c :: rest =>
      if c = 'n' then
        match rest with
        | 'u' :: 'l' :: 'l' :: r => some (.null, r)
        | _ => none
      else if c = 't' then
        match rest with
        | 'r' :: 'u' :: 'e' :: r => some (.bool true, r)
        | _ => none
      else if c = 'f' then
        match rest with
        | 'a' :: 'l' :: 's' :: 'e' :: r => some (.bool false, r)
        | _ => none
      else if c = '"' then
        (parseStringBody rest).map (fun p => (.str (String.mk p.1), p.2))
      else if c = '-' then
        match rest with
        | [] => none
        | d :: rest2 =>
          if d.isDigit then
            let p := parseDigits rest2 (d.toNat - 48)
            some (.num (-(p.1 : Int)), p.2)
          else none
      else if c.isDigit then
        let p := parseDigits rest (c.toNat - 48)
        some (.num (p.1 : Int), p.2)
      else if c = '[' then
        match rest with
        | [] => none
        | d :: rest2 =>
          if d = ']' then some (.arr [], rest2)
          else (parseElems fuel (d :: rest2)).map (fun p => (.arr p.1, p.2))
      else if c = '\x7b' then
        match rest with
        | [] => none
        | d :: rest2 =>
          if d = '\x7d' then some (.obj [], rest2)
          else (parseMembers fuel (d :: rest2)).map (fun p => (.obj p.1, p.2))
      else none

/-- Parse one or more comma-separated array elements up to the closing
bracket. -/
def parseElems : Nat → List Char → Option (List Value × List Char)
  | 0, _ => none
  | fuel+1, input =>
    match parseValue fuel input with
    | none => none
    | some (v, rest) =>
      match rest with
      | [] => none
      | c :: rest2 =>
        if c = ',' then
          (parseElems fuel rest2).map (fun p => (v :: p.1, p.2))
        else if c = ']' then some ([v], rest2)
        else none

/-- Parse one or more comma-separated object members up to the closing
brace. -/
def parseMembers : Nat → List Char → Option (List (String × Value) × List Char)
  | 0, _ => none
  | fuel+1, input =>
    match input with
    | [] => none
    | c :: rest =>
      if c = '"' then
        match parseStringBody rest with
        | none => none
        | some (k, rest2) =>
          match rest2 with
          | [] => none
          | d :: rest3 =>
            if d = ':' then
              match parseValue fuel rest3 with
              | none => none
              | some (v, rest4) =>
                match rest4 with
                | [] => none
                | e2 :: rest5 =>
                  if e2 = ',' then
                    (parseMembers fuel rest5).map
                      (fun p => ((String.mk k, v) :: p.1, p.2))
                  else if e2 = '\x7d' then some ([(String.mk k, v)], rest5)
                  else none
            else none
      else none

end

mutual

/-- Parser fuel needed for a value (an upper bound on the recursion depth
of `parseValue` on this value's rendering). -/
def stepsV : Value → Nat
  | .arr xs => 1 + stepsL xs
  | .obj fs => 1 + stepsM fs
  | _ => 1

/-- Parser fuel needed for a list of array elements. -/
def stepsL : List Value → Nat
  | [] => 0
  | x :: xs => 1 + stepsV x + stepsL xs

/-- Parser fuel needed for a list of object members. -/
def stepsM : List (String × Value) → Nat
  | [] => 0
  | (_, v) :: fs => 1 + stepsV v + stepsM fs

end

/-- Parse a whole string as one JSON value, modelling
`serde_json::from_str::<Value>`: the parse must consume the entire input. -/
def deserializeValue (s : String) : Option Value :=
  match parseValue (s.data.length + 1) s.data with
  | some (v, []) => some v
  | _ => none

/-- Render a `Value` to a string, modelling `serde_json::to_string` on the
value fragment. -/
def serializeValue (v : Value) : String :=
  String.mk (renderValue v)

/-- A character list whose head (if any) is not a decimal digit; the
characters that can follow a rendered number inside a JSON document. -/
def noDigitHead : List Char → Prop
  | [] => True
  | c :: _ => c.isDigit = false

/-- Boolean test that `p` is a prefix of `l`, modelling Rust's
`str::starts_with` on character lists. -/
def listStarts : List Char → List Char → Bool
  | [], _ => true
  | a :: as2, bs =>
    match bs with
    | b :: bs2 => a == b && listStarts as2 bs2
    | [] => false

/-- Model of Rust's `str::starts_with`. -/
def strStartsWith (s p : String) : Bool := listStarts p.data s.data

/-- Boolean test that `pat` occurs as a contiguous sublist. -/
def listContainsSub (pat : List Char) : List Char → Bool
  | [] => listStarts pat []
  | c :: rest => listStarts pat (c :: rest) || listContainsSub pat rest

/-- Model of Rust's `str::contains` for a string pattern. -/
def strContains (s pat : String) : Bool := listContainsSub pat.data s.data

/-- One resolved symbol of a captured stack frame: `symbol.name()` (already
converted to a string), `symbol.filename()` (already converted to a `str`,
`none` when either step fails) and `symbol.lineno()`. -/
structure StackSymbol where
  name : Option String
  filename : Option String
  lineno : Option Nat

/-- A captured frame is the list of symbols `frame.symbols()` yields. -/
abbrev StackFrame := List StackSymbol

/-- The internal-frame test of `build_clean_stacktrace`: slogx's own
namespace, the backtrace crate, or the runtime's capture shim. -/
def is_slogx_internal (name : String) : Bool :=
  strStartsWith name "slogx::" || strStartsWith name "backtrace::"
    || strContains name "__rust_begin_short_backtrace"

/-- The body of the symbol loop of `build_clean_stacktrace`: resolve the
symbol's fields (degrading unresolved names and files to `<unknown>` and an
unresolved line number to 0), update the `found_user_frame` flag, and emit
the formatted line once the flag is set. -/
def processSymbol (acc : List String × Bool) (symbol : StackSymbol) :
    List String × Bool :=
  let name := symbol.name.getD "<unknown>"
  let file := symbol.filename.getD "<unknown>"
  let line_num := symbol.lineno.getD 0
  let is_internal := is_slogx_internal name
  let found_user_frame := acc.2 || !is_internal
  if found_user_frame then
    (acc.1 ++ ["  at " ++ name ++ " (" ++ file ++ ":"
      ++ String.mk (renderNat line_num) ++ ")"], found_user_frame)
  else (acc.1, found_user_frame)

/-- Model of `build_clean_stacktrace`: fold the symbol loop over every
frame of the captured backtrace `bt`; if no line survives the filter,
fall back to `fallback`, the debug-format of a full capture
(`format!` of a fresh `Backtrace::new()`, supplied by the environment since
capture is modelled deterministically); otherwise join the lines with
newlines. -/
def build_clean_stacktrace (bt : List StackFrame) (fallback : String) : String :=
  let res := bt.foldl (fun acc frame => frame.foldl processSymbol acc) ([], false)
  if res.1.isEmpty then fallback
  else String.intercalate "\n" res.1

/-- The formatted trace line of one symbol, for stating properties of
`build_clean_stacktrace`. -/
def symbolLine (s : StackSymbol) : String :=
  "  at " ++ s.name.getD "<unknown>" ++ " (" ++ s.filename.getD "<unknown>" ++ ":"
    ++ String.mk (renderNat (s.lineno.getD 0)) ++ ")"

/-- Whether a symbol counts as library-internal for the filter. -/
def symbolInternal (s : StackSymbol) : Bool :=
  is_slogx_internal (s.name.getD "<unknown>")

/-- Log levels, as in the SDK (`Debug`, `Info`, `Warn`, `Error`). -/
inductive LogLevel where
  | Debug
  | Info
  | Warn
  | Error

/-- Metadata about where the log was called; `function` is serialized under
the key `func`. -/
structure LogMetadata where
  file : Option String
  line : Option Nat
  function : Option String
  lang : String
  service : String

/-- A log entry that gets sent to connected clients; `stacktrace` is
omitted from the serialization when absent. -/
structure LogEntry where
  id : String
  timestamp : String
  level : LogLevel
  args : List Value
  stacktrace : Option String
  metadata : LogMetadata

/-- The nondeterministic inputs of `LogEntry::new`, read from the
environment: the captured stack, the debug-format of a full capture (the
filter's fallback), the fresh UUID and the current timestamp. -/
structure CaptureEnv where
  stack : List StackFrame
  debugTrace : String
  uuid : String
  now : String

/-- Model of `LogEntry::new`, threaded with a counter of calls to the
stack capturer so that capture effects are visible: it captures once,
stores the trace in `stacktrace` (always present) and fixes `lang` to
`"rust"`. -/
def LogEntry.new (level : LogLevel) (args : List Value) (service_name : String)
    (file : Option String) (line : Option Nat) (function : Option String)
    (env : CaptureEnv) (captureCalls : Nat) : LogEntry × Nat :=
  let stacktrace := build_clean_stacktrace env.stack env.debugTrace
  (⟨env.uuid, env.now, level, args, some stacktrace,
    ⟨file, line, function, "rust", service_name⟩⟩, captureCalls + 1)

/-- Serialization of a level: serde's UPPERCASE rename. -/
def LogLevel.toJson : LogLevel → Value
  | .Debug => .str "DEBUG"
  | .Info => .str "INFO"
  | .Warn => .str "WARN"
  | .Error => .str "ERROR"

/-- Serde serialization of an optional string field (`null` when absent). -/
def optStrJson : Option String → Value
  | none => .null
  | some s => .str s

/-- Serde serialization of an optional unsigned field (`null` when
absent). -/
def optNatJson : Option Nat → Value
  | none => .null
  | some n => .num n

/-- Serde serialization of `LogMetadata` (fields in declaration order,
`function` renamed to `func`). -/
def LogMetadata.toJson (m : LogMetadata) : Value :=
  .obj [("file", optStrJson m.file), ("line", optNatJson m.line),
        ("func", optStrJson m.function), ("lang", .str m.lang),
        ("service", .str m.service)]

/-- Serde serialization of `LogEntry` (fields in declaration order;
`stacktrace` omitted when `none`). -/
def LogEntry.toJson (e : LogEntry) : Value :=
  .obj ([("id", .str e.id), ("timestamp", .str e.timestamp),
         ("level", e.level.toJson), ("args", .arr e.args)]
    ++ (match e.stacktrace with
        | none => []
        | some s => [("stacktrace", .str s)])
    ++ [("metadata", e.metadata.toJson)])

/-- `serde_json::to_string` on a `LogEntry` (total on the modelled
fragment). -/
def serializeLogEntry (e : LogEntry) : String := serializeValue e.toJson

/-- Field lookup in a serialized object. -/
def getField (fs : List (String × Value)) (k : String) : Option Value :=
  (fs.find? (fun p => p.1 == k)).map (fun p => p.2)

/-- Deserialize a JSON string value. -/
def asStr : Value → Option String
  | .str s => some s
  | _ => none

/-- Deserialize an `Option<String>` field: missing and `null` both decode
to `None`, as serde treats options. -/
def asOptStr : Option Value → Option (Option String)
  | none => some none
  | some .null => some none
  | some (.str s) => some (some s)
  | some _ => none

/-- Deserialize an `Option<u32>` field: missing and `null` decode to
`None`; negative numbers are rejected. -/
def asOptNat : Option Value → Option (Option Nat)
  | none => some none
  | some .null => some none
  | some (.num (Int.ofNat m)) => some (some m)
  | some (.num (Int.negSucc _)) => none
  | some _ => none

/-- Deserialization of a level from its UPPERCASE name. -/
def LogLevel.fromJson : Value → Option LogLevel
  | .str "DEBUG" => some .Debug
  | .str "INFO" => some .Info
  | .str "WARN" => some .Warn
  | .str "ERROR" => some .Error
  | _ => none

/-- Serde deserialization of `LogMetadata`. -/
def LogMetadata.fromJson : Value → Option LogMetadata
  | .obj fs =>
    match asOptStr (getField fs "file"), asOptNat (getField fs "line"),
        asOptStr (getField fs "func"), (getField fs "lang").bind asStr,
        (getField fs "service").bind asStr with
    | some file, some line, some function, some lang, some service =>
      some ⟨file, line, function, lang, service⟩
    | _, _, _, _, _ => none
  | _ => none

/-- Serde deserialization of `LogEntry`. -/
def LogEntry.fromJson : Value → Option LogEntry
  | .obj fs =>
    match (getField fs "id").bind asStr, (getField fs "timestamp").bind asStr,
        (getField fs "level").bind LogLevel.fromJson, getField fs "args",
        asOptStr (getField fs "stacktrace"),
        (getField fs "metadata").bind LogMetadata.fromJson with
    | some id, some timestamp, some level, some (.arr args), some stacktrace,
        some metadata =>
      some ⟨id, timestamp, level, args, stacktrace, metadata⟩
    | _, _, _, _, _, _ => none
  | _ => none

/-- `serde_json::from_str::<LogEntry>` on the modelled fragment. -/
def deserializeLogEntry (s : String) : Option LogEntry :=
  (deserializeValue s).bind LogEntry.fromJson

/-- A connected session's sink: whether sending a given text frame
succeeds (the network outcome, an environment input). -/
structure Client where
  send_ok : String → Bool

/-- Internal state for the SlogX server: the session registry (the
`HashMap` is modelled as an association list with unique keys), the id
counter, the service name and the initialized flag. -/
structure SlogXState where
  clients : List (Nat × Client)
  next_client_id : Nat
  service_name : String
  initialized : Bool

/-- `SlogXState::new`. -/
def SlogXState.new : SlogXState :=
  ⟨[], 0, "rust-service", false⟩

/-- `HashMap::insert`: replaces any entry with the same key. -/
def hmInsert (clients : List (Nat × Client)) (id : Nat) (sender : Client) :
    List (Nat × Client) :=
  (id, sender) :: clients.filter (fun c => c.1 != id)

/-- `HashMap::remove`: drops the entry with the key, a no-op when
absent. -/
def hmRemove (clients : List (Nat × Client)) (id : Nat) : List (Nat × Client) :=
  clients.filter (fun c => c.1 != id)

/-- `HashMap::get`. -/
def hmGet (clients : List (Nat × Client)) (id : Nat) : Option Client :=
  (clients.find? (fun c => c.1 == id)).map (fun c => c.2)

/-- The state mutation of `SlogX::start`: record the service name and set
the initialized flag (the socket binding and accept loop are I/O). -/
def SlogXState.startState (st : SlogXState) (service_name : String) : SlogXState :=
  { st with service_name := service_name, initialized := true }

/-- The registration step of the accept loop in `SlogX::start`: read the
counter as the new session's id, increment the counter, and store the
sender under that id; returns the assigned id.  The counter is a `u64`,
so the increment is taken modulo `2 ^ 64` (the wrap-around of the release
profile; a debug build would abort at the boundary instead). -/
def SlogXState.acceptClient (st : SlogXState) (sender : Client) : SlogXState × Nat :=
  let id := st.next_client_id
  ({ st with next_client_id := (st.next_client_id + 1) % 2 ^ 64,
             clients := hmInsert st.clients id sender }, id)

/-- Environment of one `log` call: the capture inputs and the serializer
(`serde_json::to_string`, which the code treats as fallible). -/
structure LogEnv where
  capture : CaptureEnv
  ser : LogEntry → Except String String

/-- Observable outcome of one `log` call: the post-state, the number of
stack captures performed, the number of serializations performed, and the
frames pushed to sessions (id paired with the pushed text). -/
structure LogResult where
  state : SlogXState
  captures : Nat
  serializes : Nat
  pushes : List (Nat × String)

/-- Model of `SlogX::log`: return early when uninitialized or no client
is registered; otherwise build the entry (capturing a stack), serialize it
once (returning early on serialization failure), push the same payload to
every registered session, and finally remove every session whose send
failed. -/
def SlogX.log (env : LogEnv) (st : SlogXState) (level : LogLevel) (args : List Value)
    (file : String) (line : Nat) (function : String) : LogResult :=
  if !st.initialized || st.clients.isEmpty then ⟨st, 0, 0, []⟩
  else
    let service_name := st.service_name
    let built := LogEntry.new level args service_name
      (some file) (some line) (some function) env.capture 0
    match env.ser built.1 with
    | .error _ => ⟨st, built.2, 1, []⟩
    | .ok payload =>
      let pushes := st.clients.map (fun c => (c.1, payload))
      let disconnected :=
        (st.clients.filter (fun c => !(c.2.send_ok payload))).map (fun c => c.1)
      let clients := disconnected.foldl hmRemove st.clients
      ⟨{ st with clients := clients }, built.2, 1, pushes⟩

/-- The state-changing operations of the server over the process
lifetime: a session registration completing, a disconnect, a `start`, or a
`log` call. -/
inductive Op where
  | connect (sender : Client)
  | disconnect (id : Nat)
  | startCall (service_name : String)
  | logCall (env : LogEnv) (level : LogLevel) (args : List Value)
      (file : String) (line : Nat) (function : String)

/-- Apply one operation to the server state; `connect` also yields the
assigned session id. -/
def applyOp (st : SlogXState) : Op → SlogXState × Option Nat
  | .connect sender =>
    let r := st.acceptClient sender
    (r.1, some r.2)
  | .disconnect id => ({ st with clients := hmRemove st.clients id }, none)
  | .startCall name => (st.startState name, none)
  | .logCall env level args file line function =>
    ((SlogX.log env st level args file line function).state, none)

/-- Run a sequence of operations, collecting the session ids assigned to
the connects in order. -/
def runOps (st : SlogXState) : List Op → SlogXState × List Nat
  | [] => (st, [])
  | op :: ops =>
    let r := applyOp st op
    let rest := runOps r.1 ops
    (rest.1, match r.2 with | some id => id :: rest.2 | none => rest.2)

/-- Whether an operation is a session registration (an insertion). -/
def isConnect : Op → Bool
  | .connect _ => true
  | _ => false

/-- A session whose sink accepts every frame. -/
def okClient : Client := ⟨fun _ => true⟩

/-- A session whose sink rejects every frame. -/
def badClient : Client := ⟨fun _ => false⟩

/-- A concrete capture environment for evaluating the model. -/
def exCaptureEnv : CaptureEnv :=
  ⟨[[⟨some "main", some "main.rs", some 10⟩]], "fulltrace", "uuid-1",
   "2026-01-01T00:00:00.000Z"⟩

/-- A log environment whose serializer is the modelled
`serde_json::to_string` (always succeeding). -/
def exEnvOk : LogEnv := ⟨exCaptureEnv, fun e => Except.ok (serializeLogEntry e)⟩

/-- A log environment whose serializer always fails. -/
def exEnvErr : LogEnv := ⟨exCaptureEnv, fun _ => Except.error "boom"⟩

/-- An initialized server state with two live sessions. -/
def exState2 : SlogXState := ⟨[(0, okClient), (1, okClient)], 2, "svc", true⟩

/-- An initialized server state with one live and one failing session. -/
def exStateMixed : SlogXState := ⟨[(0, okClient), (1, badClient)], 2, "svc", true⟩

/-- The decimal digit characters are digits. -/
theorem digitChar_isDigit : ∀ d < 10, (Nat.digitChar d).isDigit = true := by decide

/-- Decoding a decimal digit character recovers its value. -/
theorem digitChar_val : ∀ d < 10, (Nat.digitChar d).toNat - 48 = d := by decide

/-- With sufficient fuel, every character of `natToDigits` is a digit. -/
theorem natToDigits_all_digit :
    ∀ f n, n < f → ∀ c ∈ natToDigits f n, c.isDigit = true := by
  intro f
  induction f with
  | zero => intro n hn; omega
  | succ f ih =>
    intro n _ c hc
    by_cases h10 : n < 10
    · simp only [natToDigits, if_pos h10, List.mem_singleton] at hc
      subst hc; exact digitChar_isDigit n h10
    · simp only [natToDigits, if_neg h10, List.mem_append, List.mem_singleton] at hc
      rcases hc with hc | hc
      · have hdiv : n / 10 < n := Nat.div_lt_self (by omega) (by omega)
        exact ih (n / 10) (by omega) c hc
      · subst hc; exact digitChar_isDigit _ (Nat.mod_lt _ (by omega))

/-- With sufficient fuel, `natToDigits` is nonempty. -/
theorem natToDigits_ne_nil : ∀ f n, n < f → natToDigits f n ≠ [] := by
  intro f n hn
  cases f with
  | zero => omega
  | succ f =>
    by_cases h10 : n < 10
    · simp [natToDigits, if_pos h10]
    · simp [natToDigits, if_neg h10]

/-- Folding the digit-accumulation step over the rendered digits of `n`
computes `acc * 10 ^ digits + n`. -/
theorem foldl_digits :
    ∀ f n acc, n < f →
      List.foldl (fun a c => a * 10 + (c.toNat - 48)) acc (natToDigits f n)
        = acc * 10 ^ (natToDigits f n).length + n := by
  intro f
  induction f with
  | zero => intro n acc hn; omega
  | succ f ih =>
    intro n acc _
    by_cases h10 : n < 10
    · simp only [natToDigits, if_pos h10, List.foldl_cons, List.foldl_nil,
        List.length_singleton]
      rw [digitChar_val n h10]; ring
    · have hdiv : n / 10 < n := Nat.div_lt_self (by omega) (by omega)
      simp only [natToDigits, if_neg h10, List.foldl_append, List.foldl_cons,
        List.foldl_nil, List.length_append, List.length_singleton]
      rw [ih (n / 10) acc (by omega)]
      rw [digitChar_val (n % 10) (Nat.mod_lt _ (by omega))]
      have hmod := Nat.div_add_mod n 10
      ring_nf
      omega

/-- `parseDigits` consumes exactly a run of digit characters and stops at
the first non-digit. -/
theorem parseDigits_append :
    ∀ ds rest acc, (∀ c ∈ ds, c.isDigit = true) → noDigitHead rest →
      parseDigits (ds ++ rest) acc
        = (List.foldl (fun a c => a * 10 + (c.toNat - 48)) acc ds, rest) := by
  intro ds
  induction ds with
  | nil =>
    intro rest acc _ hrest
    cases rest with
    | nil => rfl
    | cons c cs => simp only [noDigitHead] at hrest; simp [parseDigits, hrest]
  | cons d ds ih =>
    intro rest acc hds hrest
    have hd : d.isDigit = true := hds d (List.mem_cons_self d ds)
    simp only [List.cons_append, parseDigits, hd, if_pos]
    exact ih rest _ (fun c hc => hds c (List.mem_cons_of_mem d hc)) hrest

/-- Parsing the decimal rendering of `n` (after its first digit has been
consumed into the accumulator) recovers `n` and the trailing input. -/
theorem parseDigits_renderNat (n : Nat) (rest : List Char) (c : Char)
    (cs : List Char) (hrender : renderNat n = c :: cs) (hrest : noDigitHead rest) :
    c.isDigit = true ∧ parseDigits (cs ++ rest) (c.toNat - 48) = (n, rest) := by
  have hall := natToDigits_all_digit (n + 1) n (Nat.lt_succ_self n)
  rw [show natToDigits (n + 1) n = renderNat n from rfl, hrender] at hall
  have hc : c.isDigit = true := hall c (List.mem_cons_self c cs)
  refine ⟨hc, ?_⟩
  have happ := parseDigits_append cs rest (c.toNat - 48)
    (fun x hx => hall x (List.mem_cons_of_mem c hx)) hrest
  rw [happ]
  have hfold := foldl_digits (n + 1) n 0 (Nat.lt_succ_self n)
  rw [show natToDigits (n + 1) n = renderNat n from rfl, hrender] at hfold
  simp only [List.foldl_cons, Nat.zero_mul, Nat.zero_add] at hfold
  rw [hfold]

/-- Decoding a rendered hex digit recovers its value. -/
theorem hexVal_hexDigit : ∀ d < 16, hexVal (hexDigit d) = some d := by decide

/-- Parsing an escaped string body up to the closing quote recovers the
original characters. -/
theorem parseStringBody_escape :
    ∀ s rest, parseStringBody (escapeList s ++ '"' :: rest) = some (s, rest) := by
  intro s
  induction s with
  | nil =>
    intro rest
    show parseStringBody ('"' :: rest) = some ([], rest)
    rw [parseStringBody.eq_def]; simp
  | cons c cs ih =>
    intro rest
    by_cases h1 : c = '"'
    · subst h1
      simp only [escapeList, escapeChar, if_pos rfl, List.cons_append, List.nil_append]
      rw [parseStringBody.eq_def]; simp [ih]
    · by_cases h2 : c = '\\'
      · subst h2
        simp only [escapeList, escapeChar, reduceIte, List.cons_append, List.nil_append]
        rw [parseStringBody.eq_def]; simp [ih]
      · by_cases h3 : c = '\x08'
        · subst h3
          simp only [escapeList, escapeChar, reduceIte, List.cons_append, List.nil_append]
          rw [parseStringBody.eq_def]; simp [ih]
        · by_cases h4 : c = '\t'
          · subst h4
            simp only [escapeList, escapeChar, reduceIte, List.cons_append, List.nil_append]
            rw [parseStringBody.eq_def]; simp [ih]
          · by_cases h5 : c = '\n'
            · subst h5
              simp only [escapeList, escapeChar, reduceIte, List.cons_append,
                List.nil_append]
              rw [parseStringBody.eq_def]; simp [ih]
            · by_cases h6 : c = '\x0c'
              · subst h6
                simp only [escapeList, escapeChar, reduceIte, List.cons_append,
                  List.nil_append]
                rw [parseStringBody.eq_def]; simp [ih]
              · by_cases h7 : c = '\r'
                · subst h7
                  simp only [escapeList, escapeChar, reduceIte, List.cons_append,
                    List.nil_append]
                  rw [parseStringBody.eq_def]; simp [ih]
                · by_cases h8 : c.toNat < 32
                  · simp only [escapeList, escapeChar, if_neg h1, if_neg h2, if_neg h3,
                      if_neg h4, if_neg h5, if_neg h6, if_neg h7, if_pos h8,
                      List.cons_append, List.nil_append]
                    have hhi : hexVal (hexDigit (c.toNat / 16)) = some (c.toNat / 16) :=
                      hexVal_hexDigit _ (by omega)
                    have hlo : hexVal (hexDigit (c.toNat % 16)) = some (c.toNat % 16) :=
                      hexVal_hexDigit _ (by omega)
                    rw [parseStringBody.eq_def]
                    simp only [reduceIte, show hexVal '0' = some 0 from by decide,
                      hhi, hlo, ih]
                    have hdecode : 4096 * 0 + 256 * 0 + 16 * (c.toNat / 16) + c.toNat % 16
                        = c.toNat := by omega
                    rw [hdecode, Char.ofNat_toNat]
                    rfl
                  · simp only [escapeList, escapeChar, if_neg h1, if_neg h2, if_neg h3,
                      if_neg h4, if_neg h5, if_neg h6, if_neg h7, if_neg h8,
                      List.cons_append, List.nil_append]
                    rw [parseStringBody.eq_def]
                    simp [h1, h2, ih]

/-- The decimal rendering of a natural number is nonempty. -/
theorem renderNat_ne_nil (n : Nat) : renderNat n ≠ [] :=
  natToDigits_ne_nil (n + 1) n (Nat.lt_succ_self n)

/-- A digit character is none of the characters the value parser
dispatches on before its digit branch. -/
theorem isDigit_head_facts (c : Char) (h : c.isDigit = true) :
    c ≠ 'n' ∧ c ≠ 't' ∧ c ≠ 'f' ∧ c ≠ '"' ∧ c ≠ '-' ∧ c ≠ ']' ∧ c ≠ '\x7d' := by
  refine ⟨?_, ?_, ?_, ?_, ?_, ?_, ?_⟩ <;> (rintro rfl; simp [Char.isDigit] at h)

/-- The rendering of any value is nonempty and does not start with a
closing bracket, closing brace, or comma. -/
theorem renderValue_head (v : Value) :
    ∃ c cs, renderValue v = c :: cs ∧ c ≠ ']' ∧ c ≠ '\x7d' ∧ c ≠ ',' := by
  cases v with
  | null =>
    exact ⟨'n', ['u', 'l', 'l'], by simp [renderValue], by decide, by decide, by decide⟩
  | bool b =>
    cases b with
    | true =>
      exact ⟨'t', ['r', 'u', 'e'], by simp [renderValue], by decide, by decide, by decide⟩
    | false =>
      exact ⟨'f', ['a', 'l', 's', 'e'], by simp [renderValue], by decide, by decide,
        by decide⟩
  | num n =>
    by_cases hn : n < 0
    · exact ⟨'-', renderNat n.natAbs, by simp [renderValue, renderInt, if_pos hn],
        by decide, by decide, by decide⟩
    · obtain ⟨c, cs, hcs⟩ := List.exists_cons_of_ne_nil (renderNat_ne_nil n.toNat)
      have hd : c.isDigit = true := by
        have := natToDigits_all_digit (n.toNat + 1) n.toNat (Nat.lt_succ_self _)
        exact this c (by rw [show natToDigits (n.toNat + 1) n.toNat = renderNat n.toNat
          from rfl, hcs]; exact List.mem_cons_self c cs)
      obtain ⟨_, _, _, _, _, h6, h7⟩ := isDigit_head_facts c hd
      refine ⟨c, cs, ?_, h6, h7, ?_⟩
      · simp [renderValue, renderInt, if_neg hn, hcs]
      · rintro rfl; simp [Char.isDigit] at hd
  | str s =>
    exact ⟨'"', escapeList s.data ++ ['"'], by simp [renderValue], by decide, by decide,
      by decide⟩
  | arr xs =>
    exact ⟨'[', renderArray xs ++ [']'], by simp [renderValue], by decide, by decide,
      by decide⟩
  | obj fs =>
    exact ⟨'\x7b', renderObject fs ++ ['\x7d'], by simp [renderValue], by decide,
      by decide, by decide⟩

/-- The rendering of a nonempty array body starts with the rendering of
its first element. -/
theorem renderArray_cons (x : Value) (xs : List Value) :
    ∃ t, renderArray (x :: xs) = renderValue x ++ t := by
  cases xs with
  | nil => exact ⟨[], by simp [renderArray]⟩
  | cons y ys => exact ⟨',' :: renderArray (y :: ys), by simp [renderArray]⟩

/-- The rendering of a nonempty object body starts with a quote. -/
theorem renderObject_cons (k : String) (v : Value) (fs : List (String × Value)) :
    ∃ t, renderObject ((k, v) :: fs) = '"' :: t := by
  cases fs with
  | nil => exact ⟨escapeList k.data ++ '"' :: ':' :: renderValue v, by simp [renderObject]⟩
  | cons m ms =>
    exact ⟨escapeList k.data ++ '"' :: ':' :: (renderValue v ++ ',' :: renderObject (m :: ms)),
      by simp [renderObject]⟩

/-- Every value needs at least one unit of parser fuel. -/
theorem stepsV_pos (v : Value) : 1 ≤ stepsV v := by
  cases v <;> simp [stepsV]

/-- A digit character is one of the ten decimal digit characters. -/
theorem isDigit_cases (c : Char) (h : c.isDigit = true) :
    c = '0' ∨ c = '1' ∨ c = '2' ∨ c = '3' ∨ c = '4' ∨ c = '5' ∨ c = '6' ∨ c = '7'
      ∨ c = '8' ∨ c = '9' := by
  have hb : 48 ≤ c.toNat ∧ c.toNat ≤ 57 := by simp [Char.isDigit] at h; exact h
  have hc := (Char.ofNat_toNat c).symm
  obtain ⟨h1, h2⟩ := hb
  interval_cases hq : c.toNat <;> rw [hc] <;> simp

/-- Parser dispatch: a null literal. -/
theorem parseValue_null (fuel : Nat) (r : List Char) :
    parseValue (fuel + 1) ('n' :: 'u' :: 'l' :: 'l' :: r) = some (.null, r) := rfl

/-- Parser dispatch: a true literal. -/
theorem parseValue_true (fuel : Nat) (r : List Char) :
    parseValue (fuel + 1) ('t' :: 'r' :: 'u' :: 'e' :: r) = some (.bool true, r) := rfl

/-- Parser dispatch: a false literal. -/
theorem parseValue_false (fuel : Nat) (r : List Char) :
    parseValue (fuel + 1) ('f' :: 'a' :: 'l' :: 's' :: 'e' :: r)
      = some (.bool false, r) := rfl

/-- Parser dispatch: an opening quote hands the rest to the string parser. -/
theorem parseValue_quote (fuel : Nat) (r : List Char) :
    parseValue (fuel + 1) ('"' :: r)
      = (parseStringBody r).map (fun p => (.str (String.mk p.1), p.2)) := rfl

/-- Parser dispatch: a digit starts a number. -/
theorem parseValue_digit (fuel : Nat) (c : Char) (r : List Char)
    (hd : c.isDigit = true) :
    parseValue (fuel + 1) (c :: r)
      = some (.num ((parseDigits r (c.toNat - 48)).1 : Int),
          (parseDigits r (c.toNat - 48)).2) := by
  rcases isDigit_cases c hd with rfl | rfl | rfl | rfl | rfl | rfl | rfl | rfl | rfl | rfl
    <;> rfl

/-- Parser dispatch: a minus sign followed by a digit starts a negative
number. -/
theorem parseValue_minus (fuel : Nat) (d : Char) (r : List Char)
    (hd : d.isDigit = true) :
    parseValue (fuel + 1) ('-' :: d :: r)
      = some (.num (-((parseDigits r (d.toNat - 48)).1 : Int)),
          (parseDigits r (d.toNat - 48)).2) := by
  rcases isDigit_cases d hd with rfl | rfl | rfl | rfl | rfl | rfl | rfl | rfl | rfl | rfl
    <;> rfl

/-- Parser dispatch: an empty array literal. -/
theorem parseValue_arr_nil (fuel : Nat) (r : List Char) :
    parseValue (fuel + 1) ('[' :: ']' :: r) = some (.arr [], r) := rfl

/-- Parser dispatch: a nonempty array hands its body to the element
parser. -/
theorem parseValue_arr (fuel : Nat) (d : Char) (r : List Char) (hd : d ≠ ']') :
    parseValue (fuel + 1) ('[' :: d :: r)
      = (parseElems fuel (d :: r)).map (fun p => (.arr p.1, p.2)) := by
  have hred : parseValue (fuel + 1) ('[' :: d :: r)
      = if d = ']' then some (.arr [], r)
        else (parseElems fuel (d :: r)).map (fun p => (.arr p.1, p.2)) := rfl
  rw [hred, if_neg hd]

/-- Parser dispatch: an empty object literal. -/
theorem parseValue_obj_nil (fuel : Nat) (r : List Char) :
    parseValue (fuel + 1) ('\x7b' :: '\x7d' :: r) = some (.obj [], r) := rfl

/-- Parser dispatch: a nonempty object hands its body to the member
parser. -/
theorem parseValue_obj (fuel : Nat) (d : Char) (r : List Char) (hd : d ≠ '\x7d') :
    parseValue (fuel + 1) ('\x7b' :: d :: r)
      = (parseMembers fuel (d :: r)).map (fun p => (.obj p.1, p.2)) := by
  have hred : parseValue (fuel + 1) ('\x7b' :: d :: r)
      = if d = '\x7d' then some (.obj [], r)
        else (parseMembers fuel (d :: r)).map (fun p => (.obj p.1, p.2)) := rfl
  rw [hred, if_neg hd]

/-- Element parser: one step of the comma-separated element loop, with the
leading value parse already resolved. -/
theorem parseElems_red (fuel : Nat) (input : List Char) :
    parseElems (fuel + 1) input
      = (match parseValue fuel input with
         | none => none
         | some (v, rest) =>
           match rest with
           | [] => none
           | c :: rest2 =>
             if c = ',' then (parseElems fuel rest2).map (fun p => (v :: p.1, p.2))
             else if c = ']' then some ([v], rest2)
             else none) := rfl

/-- Element parser: an element followed by a comma continues the list. -/
theorem parseElems_step (fuel : Nat) (input r2 : List Char) (v : Value)
    (h : parseValue fuel input = some (v, ',' :: r2)) :
    parseElems (fuel + 1) input
      = (parseElems fuel r2).map (fun p => (v :: p.1, p.2)) := by
  rw [parseElems_red, h]
  simp

/-- Element parser: an element followed by a closing bracket ends the
list. -/
theorem parseElems_last (fuel : Nat) (input r2 : List Char) (v : Value)
    (h : parseValue fuel input = some (v, ']' :: r2)) :
    parseElems (fuel + 1) input = some ([v], r2) := by
  rw [parseElems_red, h]
  simp

/-- Member parser: one step of the comma-separated member loop, with the
leading quote already consumed. -/
theorem parseMembers_red (fuel : Nat) (body : List Char) :
    parseMembers (fuel + 1) ('"' :: body)
      = (match parseStringBody body with
         | none => none
         | some (k, rest2) =>
           match rest2 with
           | [] => none
           | d :: rest3 =>
             if d = ':' then
               match parseValue fuel rest3 with
               | none => none
               | some (v, rest4) =>
                 match rest4 with
                 | [] => none
                 | e2 :: rest5 =>
                   if e2 = ',' then
                     (parseMembers fuel rest5).map
                       (fun p => ((String.mk k, v) :: p.1, p.2))
                   else if e2 = '\x7d' then some ([(String.mk k, v)], rest5)
                   else none
             else none) := rfl

/-- Member parser: a member followed by a comma continues the list. -/
theorem parseMembers_step (fuel : Nat) (body r3 r5 kd : List Char) (v : Value)
    (hk : parseStringBody body = some (kd, ':' :: r3))
    (hv : parseValue fuel r3 = some (v, ',' :: r5)) :
    parseMembers (fuel + 1) ('"' :: body)
      = (parseMembers fuel r5).map (fun p => ((String.mk kd, v) :: p.1, p.2)) := by
  rw [parseMembers_red, hk]
  simp only [reduceIte]
  rw [hv]
  simp

/-- Member parser: a member followed by a closing brace ends the list. -/
theorem parseMembers_last (fuel : Nat) (body r3 r5 kd : List Char) (v : Value)
    (hk : parseStringBody body = some (kd, ':' :: r3))
    (hv : parseValue fuel r3 = some (v, '\x7d' :: r5)) :
    parseMembers (fuel + 1) ('"' :: body) = some ([(String.mk kd, v)], r5) := by
  rw [parseMembers_red, hk]
  simp only [reduceIte]
  rw [hv]
  simp

/-- Parsing the rendering of a value (with any non-digit continuation)
recovers the value: the master round-trip for the fuel-indexed parser,
proved simultaneously for values, array bodies and object bodies. -/
theorem parse_render_master :
    ∀ fuel : Nat,
      (∀ v rest, stepsV v ≤ fuel → noDigitHead rest →
        parseValue fuel (renderValue v ++ rest) = some (v, rest)) ∧
      (∀ x xs rest, stepsL (x :: xs) ≤ fuel →
        parseElems fuel (renderArray (x :: xs) ++ ']' :: rest) = some (x :: xs, rest)) ∧
      (∀ k v fs rest, stepsM ((k, v) :: fs) ≤ fuel →
        parseMembers fuel (renderObject ((k, v) :: fs) ++ '\x7d' :: rest)
          = some ((k, v) :: fs, rest)) := by
  intro fuel
  induction fuel with
  | zero =>
    refine ⟨?_, ?_, ?_⟩
    · intro v rest hsteps _; have := stepsV_pos v; omega
    · intro x xs rest hsteps; simp [stepsL] at hsteps
    · intro k v fs rest hsteps; simp [stepsM] at hsteps
  | succ fuel ih =>
    obtain ⟨ihP, ihQ, ihR⟩ := ih
    refine ⟨?_, ?_, ?_⟩
    · intro v rest hsteps hrest
      cases v with
      | null =>
        simp only [renderValue, List.cons_append, List.nil_append]
        exact parseValue_null fuel rest
      | bool b =>
        cases b with
        | true =>
          simp only [renderValue, List.cons_append, List.nil_append]
          exact parseValue_true fuel rest
        | false =>
          simp only [renderValue, List.cons_append, List.nil_append]
          exact parseValue_false fuel rest
      | num n =>
        simp only [renderValue, renderInt]
        by_cases hn : n < 0
        · rw [if_pos hn]
          obtain ⟨c, cs, hcs⟩ := List.exists_cons_of_ne_nil (renderNat_ne_nil n.natAbs)
          obtain ⟨hd, hpd⟩ := parseDigits_renderNat n.natAbs rest c cs hcs hrest
          rw [hcs]
          simp only [List.cons_append]
          rw [parseValue_minus fuel c (cs ++ rest) hd, hpd]
          have : -((n.natAbs : Nat) : Int) = n := by omega
          rw [this]
        · rw [if_neg hn]
          obtain ⟨c, cs, hcs⟩ := List.exists_cons_of_ne_nil (renderNat_ne_nil n.toNat)
          obtain ⟨hd, hpd⟩ := parseDigits_renderNat n.toNat rest c cs hcs hrest
          rw [hcs]
          simp only [List.cons_append]
          rw [parseValue_digit fuel c (cs ++ rest) hd, hpd]
          have : ((n.toNat : Nat) : Int) = n := by omega
          rw [this]
      | str s =>
        simp only [renderValue, List.cons_append, List.append_assoc, List.nil_append]
        rw [parseValue_quote fuel _, parseStringBody_escape]
        rfl
      | arr xs =>
        cases xs with
        | nil =>
          simp only [renderValue, renderArray, List.nil_append, List.cons_append]
          exact parseValue_arr_nil fuel rest
        | cons x xs =>
          obtain ⟨t, ht⟩ := renderArray_cons x xs
          obtain ⟨c, cs, hcs, hc1, hc2, hc3⟩ := renderValue_head x
          have hshape : renderArray (x :: xs) ++ ']' :: rest
              = c :: (cs ++ (t ++ ']' :: rest)) := by
            rw [ht, hcs]; simp
          simp only [renderValue, List.cons_append, List.append_assoc, List.nil_append]
          rw [hshape, parseValue_arr fuel c _ hc1, ← hshape,
            ihQ x xs rest (by simp [stepsV] at hsteps; omega)]
          rfl
      | obj fs =>
        cases fs with
        | nil =>
          simp only [renderValue, renderObject, List.nil_append, List.cons_append]
          exact parseValue_obj_nil fuel rest
        | cons m fs =>
          obtain ⟨k, v⟩ := m
          obtain ⟨t, ht⟩ := renderObject_cons k v fs
          have hshape : renderObject ((k, v) :: fs) ++ '\x7d' :: rest
              = '"' :: (t ++ '\x7d' :: rest) := by rw [ht]; simp
          simp only [renderValue, List.cons_append, List.append_assoc, List.nil_append]
          rw [hshape, parseValue_obj fuel '"' _ (by decide), ← hshape,
            ihR k v fs rest (by simp [stepsV] at hsteps; omega)]
          rfl
    · intro x xs rest hsteps
      cases xs with
      | nil =>
        simp only [renderArray]
        exact parseElems_last fuel _ rest x
          (ihP x (']' :: rest) (by simp [stepsL, stepsV] at hsteps ⊢; omega)
            (by simp [noDigitHead]))
      | cons y ys =>
        have hshape : renderArray (x :: y :: ys) ++ ']' :: rest
            = renderValue x ++ (',' :: (renderArray (y :: ys) ++ ']' :: rest)) := by
          simp [renderArray]
        rw [hshape]
        rw [parseElems_step fuel _ _ x
          (ihP x (',' :: (renderArray (y :: ys) ++ ']' :: rest))
            (by simp [stepsL] at hsteps ⊢; omega) (by simp [noDigitHead]))]
        rw [ihQ y ys rest (by simp [stepsL] at hsteps ⊢; omega)]
        rfl
    · intro k v fs rest hsteps
      cases fs with
      | nil =>
        have hshape : renderObject [(k, v)] ++ '\x7d' :: rest
            = '"' :: (escapeList k.data ++ '"' :: (':' :: (renderValue v
                ++ '\x7d' :: rest))) := by
          simp [renderObject]
        rw [hshape]
        rw [parseMembers_last fuel _ _ rest k.data v
          (parseStringBody_escape k.data (':' :: (renderValue v ++ '\x7d' :: rest)))
          (ihP v ('\x7d' :: rest) (by simp [stepsM] at hsteps ⊢; omega)
            (by simp [noDigitHead]))]
      | cons m fs =>
        obtain ⟨k2, v2⟩ := m
        have hshape : renderObject ((k, v) :: (k2, v2) :: fs) ++ '\x7d' :: rest
            = '"' :: (escapeList k.data ++ '"' :: (':' :: (renderValue v
                ++ ',' :: (renderObject ((k2, v2) :: fs) ++ '\x7d' :: rest)))) := by
          simp [renderObject]
        rw [hshape]
        rw [parseMembers_step fuel _ _ _ k.data v
          (parseStringBody_escape k.data _)
          (ihP v (',' :: (renderObject ((k2, v2) :: fs) ++ '\x7d' :: rest))
            (by simp [stepsM] at hsteps ⊢; omega) (by simp [noDigitHead]))]
        rw [ihR k2 v2 fs rest (by simp [stepsM] at hsteps ⊢; omega)]
        rfl


example : serializeValue (.arr [.null, .num 12, .str "a"]) = "[null,12,\"a\"]" := by decide
example : deserializeValue "[null,12,\"a\"]" = some (.arr [.null, .num 12, .str "a"]) := rfl
example : serializeValue (.obj [("a", .num (-3)), ("b", .arr [])]) = "\x7b\"a\":-3,\"b\":[]\x7d" := by decide
example : deserializeValue "\x7b\"a\":-3,\"b\":[]\x7d" = some (.obj [("a", .num (-3)), ("b", .arr [])]) := rfl

/-- Structural induction for `Value` with membership hypotheses for the
nested lists. -/
theorem Value.recMem {P : Value → Prop}
    (hnull : P .null) (hbool : ∀ b, P (.bool b)) (hnum : ∀ n, P (.num n))
    (hstr : ∀ s, P (.str s))
    (harr : ∀ xs, (∀ x ∈ xs, P x) → P (.arr xs))
    (hobj : ∀ fs, (∀ p ∈ fs, P p.2) → P (.obj fs)) :
    ∀ v, P v := fun v =>
  match v with
  | .null => hnull
  | .bool b => hbool b
  | .num n => hnum n
  | .str s => hstr s
  | .arr xs => harr xs (fun x hx =>
      Value.recMem hnull hbool hnum hstr harr hobj x)
  | .obj fs => hobj fs (fun p hp =>
      Value.recMem hnull hbool hnum hstr harr hobj p.2)
termination_by v => sizeOf v
decreasing_by
  · have := List.sizeOf_lt_of_mem hx
    simp only [Value.arr.sizeOf_spec]
    omega
  · have h1 := List.sizeOf_lt_of_mem hp
    have h2 : sizeOf p.2 < sizeOf p := by
      obtain ⟨a, b⟩ := p
      simp
    simp only [Value.obj.sizeOf_spec]
    omega

/-- The parser fuel a value needs is bounded by the length of its
rendering. -/
theorem stepsV_le : ∀ v, stepsV v ≤ (renderValue v).length := by
  intro v
  induction v using Value.recMem with
  | hnull => simp [stepsV, renderValue]
  | hbool b => cases b <;> simp [stepsV, renderValue]
  | hnum n =>
    have : renderInt n ≠ [] := by
      unfold renderInt
      by_cases hn : n < 0
      · simp [if_pos hn]
      · simp [if_neg hn, renderNat_ne_nil]
    have hlen : 1 ≤ (renderInt n).length := by
      cases h : renderInt n with
      | nil => exact absurd h this
      | cons c cs => simp
    simp [stepsV, renderValue]
    omega
  | hstr s => simp [stepsV, renderValue]
  | harr xs hmem =>
    have haux : ∀ ys, (∀ x ∈ ys, stepsV x ≤ (renderValue x).length) →
        stepsL ys ≤ (renderArray ys).length + 1 := by
      intro ys
      induction ys with
      | nil => intro _; simp [stepsL, renderArray]
      | cons x ys ih =>
        intro hys
        cases ys with
        | nil =>
          have := hys x (List.mem_cons_self x [])
          simp [stepsL, renderArray]
          omega
        | cons y ys2 =>
          have hx := hys x (List.mem_cons_self x (y :: ys2))
          have hrec := ih (fun z hz => hys z (List.mem_cons_of_mem x hz))
          simp [stepsL, renderArray] at hrec ⊢
          omega
    have := haux xs hmem
    simp [stepsV, renderValue]
    omega
  | hobj fs hmem =>
    have haux : ∀ gs, (∀ p ∈ gs, stepsV p.2 ≤ (renderValue p.2).length) →
        stepsM gs ≤ (renderObject gs).length + 1 := by
      intro gs
      induction gs with
      | nil => intro _; simp [stepsM, renderObject]
      | cons m gs ih =>
        intro hgs
        obtain ⟨k, v⟩ := m
        cases gs with
        | nil =>
          have := hgs (k, v) (List.mem_cons_self _ [])
          simp [stepsM, renderObject] at this ⊢
          omega
        | cons m2 gs2 =>
          obtain ⟨k2, v2⟩ := m2
          have hv := hgs (k, v) (List.mem_cons_self _ _)
          have hrec := ih (fun z hz => hgs z (List.mem_cons_of_mem _ hz))
          simp [stepsM, renderObject] at hv hrec ⊢
          omega
    have := haux fs hmem
    simp [stepsV, renderValue]
    omega

/-- Round-trip of the JSON text layer: rendering a value and parsing the
text back recovers the value, as the spec's serialization round-trip
requires at the `serde_json::Value` level. -/
theorem roundtrip_value (v : Value) : deserializeValue (serializeValue v) = some v := by
  have hmaster := (parse_render_master ((renderValue v).length + 1)).1 v []
    (le_trans (stepsV_le v) (Nat.le_succ _)) (by simp [noDigitHead])
  rw [List.append_nil] at hmaster
  have hred : deserializeValue (serializeValue v)
      = match parseValue ((renderValue v).length + 1) (renderValue v) with
        | some (w, []) => some w
        | _ => none := rfl
  rw [hred, hmaster]

/-- Deserializing the serialization of a `LogEntry`'s JSON tree recovers
the entry, field by field. -/
theorem fromJson_toJson (e : LogEntry) : LogEntry.fromJson e.toJson = some e := by
  obtain ⟨id, ts, level, args, st, meta⟩ := e
  obtain ⟨file, line, fn, lang, service⟩ := meta
  cases st <;> cases level <;> cases file <;> cases line <;> cases fn <;> rfl

/-- Round-trip at the wire level: serializing a `LogEntry` to its JSON
text and parsing the text back recovers the entry. -/
theorem roundtrip_logEntry (e : LogEntry) :
    deserializeLogEntry (serializeLogEntry e) = some e := by
  unfold deserializeLogEntry serializeLogEntry
  rw [roundtrip_value]
  exact fromJson_toJson e

/-- Once the user-frame flag is set, every remaining symbol's line is
emitted, in order. -/
theorem foldl_processSymbol_found (syms : List StackSymbol) :
    ∀ lines0, List.foldl processSymbol (lines0, true) syms
      = (lines0 ++ syms.map symbolLine, true) := by
  induction syms with
  | nil => intro lines0; simp
  | cons s syms ih =>
    intro lines0
    have hstep : processSymbol (lines0, true) s = (lines0 ++ [symbolLine s], true) := rfl
    rw [List.foldl_cons, hstep, ih]
    simp

/-- The symbol loop of `build_clean_stacktrace` emits exactly the lines of
the symbols from the first non-internal one onward, and records whether
any non-internal symbol was seen. -/
theorem foldl_processSymbol (syms : List StackSymbol) :
    List.foldl processSymbol ([], false) syms
      = ((syms.dropWhile symbolInternal).map symbolLine,
         syms.any (fun s => !symbolInternal s)) := by
  induction syms with
  | nil => rfl
  | cons s syms ih =>
    by_cases h : symbolInternal s = true
    · have hstep : processSymbol ([], false) s = ([], false) := by
        unfold processSymbol
        unfold symbolInternal at h
        simp [h]
      rw [List.foldl_cons, hstep, ih]
      simp [List.dropWhile_cons, h]
    · have h' : symbolInternal s = false := by
        cases hq : symbolInternal s
        · rfl
        · exact absurd hq h
      have hstep : processSymbol ([], false) s = ([symbolLine s], true) := by
        unfold processSymbol
        unfold symbolInternal at h'
        simp [h', symbolLine]
      rw [List.foldl_cons, hstep, foldl_processSymbol_found]
      simp [List.dropWhile_cons, h']

/-- `build_clean_stacktrace` in closed form: drop the leading run of
library-internal symbols; if nothing remains, fall back to the full debug
trace, otherwise join the formatted lines of all remaining symbols. -/
theorem build_clean_stacktrace_eq (bt : List StackFrame) (fallback : String) :
    build_clean_stacktrace bt fallback
      = if (bt.flatten.dropWhile symbolInternal).isEmpty then fallback
        else String.intercalate "\n"
          ((bt.flatten.dropWhile symbolInternal).map symbolLine) := by
  unfold build_clean_stacktrace
  rw [← List.foldl_flatten processSymbol ([], false) bt, foldl_processSymbol]
  cases h : List.dropWhile symbolInternal bt.flatten with
  | nil => simp [h]
  | cons a l => simp [h]

/-- The guard of `log`: when not initialized or no session is registered,
`log` leaves the state unchanged and performs no capture, no serialization
and no push. -/
theorem log_guard (env : LogEnv) (st : SlogXState) (level : LogLevel)
    (args : List Value) (file : String) (line : Nat) (function : String)
    (h : st.initialized = false ∨ st.clients = []) :
    SlogX.log env st level args file line function = ⟨st, 0, 0, []⟩ := by
  unfold SlogX.log
  have hcond : (!st.initialized || st.clients.isEmpty) = true := by
    rcases h with h | h <;> simp [h]
  rw [hcond]
  simp

/-- After the guard passes and serialization fails, `log` returns the
unchanged state, having captured once and serialized once, pushing
nothing. -/
theorem log_err (env : LogEnv) (st : SlogXState) (level : LogLevel)
    (args : List Value) (file : String) (line : Nat) (function : String)
    (hinit : st.initialized = true) (hne : st.clients ≠ []) (msg : String)
    (hser : env.ser (LogEntry.new level args st.service_name
        (some file) (some line) (some function) env.capture 0).1
      = .error msg) :
    SlogX.log env st level args file line function = ⟨st, 1, 1, []⟩ := by
  unfold SlogX.log
  have hcond : (!st.initialized || st.clients.isEmpty) = false := by
    rcases hc : st.clients with _ | ⟨a, l⟩
    · exact absurd hc hne
    · simp [hinit, hc]
  rw [hcond]
  simp only [Bool.false_eq_true, if_false]
  rw [hser]
  rfl

/-- After the guard passes and serialization succeeds, `log` pushes the
single payload to every registered session and removes exactly the
collected failed ids, having captured once and serialized once. -/
theorem log_ok (env : LogEnv) (st : SlogXState) (level : LogLevel)
    (args : List Value) (file : String) (line : Nat) (function : String)
    (hinit : st.initialized = true) (hne : st.clients ≠ []) (payload : String)
    (hser : env.ser (LogEntry.new level args st.service_name
        (some file) (some line) (some function) env.capture 0).1
      = .ok payload) :
    SlogX.log env st level args file line function
      = ⟨{ st with clients :=
            ((st.clients.filter (fun c => !(c.2.send_ok payload))).map
              (fun c => c.1)).foldl hmRemove st.clients },
         1, 1, st.clients.map (fun c => (c.1, payload))⟩ := by
  unfold SlogX.log
  have hcond : (!st.initialized || st.clients.isEmpty) = false := by
    rcases hc : st.clients with _ | ⟨a, l⟩
    · exact absurd hc hne
    · simp [hinit, hc]
  rw [hcond]
  simp only [Bool.false_eq_true, if_false]
  rw [hser]
  rfl

/-- Removing a batch of ids from the registry removes exactly the entries
whose key is in the batch. -/
theorem foldl_hmRemove (ids : List Nat) :
    ∀ l : List (Nat × Client),
      ids.foldl hmRemove l = l.filter (fun c => !(ids.contains c.1)) := by
  induction ids with
  | nil =>
    intro l
    simp [List.foldl_nil]
  | cons id ids ih =>
    intro l
    rw [List.foldl_cons, ih (hmRemove l id)]
    unfold hmRemove
    rw [List.filter_filter]
    apply List.filter_congr
    intro x _
    rw [List.contains_cons]
    cases hm : List.contains ids x.1 <;> cases he : x.1 == id <;>
      simp [bne, hm, he]

/-- With unique registry keys, batch-removing the collected failed ids
keeps exactly the sessions whose send succeeded. -/
theorem prune_eq_filter (payload : String) (l : List (Nat × Client))
    (hnodup : (l.map Prod.fst).Nodup) :
    ((l.filter (fun c => !(c.2.send_ok payload))).map (fun c => c.1)).foldl
        hmRemove l
      = l.filter (fun c => c.2.send_ok payload) := by
  rw [foldl_hmRemove]
  apply List.filter_congr
  intro x hx
  cases hsend : x.2.send_ok payload
  · have hxf : x ∈ l.filter (fun c => !(c.2.send_ok payload)) :=
      List.mem_filter.2 ⟨hx, by simp [hsend]⟩
    have hmem : x.1 ∈ (l.filter (fun c => !(c.2.send_ok payload))).map
        (fun c => c.1) := List.mem_map_of_mem _ hxf
    have hc : ((l.filter (fun c => !(c.2.send_ok payload))).map
        (fun c => c.1)).contains x.1 = true := List.elem_iff.2 hmem
    rw [hc]
    rfl
  · have hnot : x.1 ∉ (l.filter (fun c => !(c.2.send_ok payload))).map
        (fun c => c.1) := by
      intro hmem
      obtain ⟨y, hyf, hyx⟩ := List.mem_map.1 hmem
      obtain ⟨hyl, hysend⟩ := List.mem_filter.1 hyf
      have hxy : y = x := List.inj_on_of_nodup_map hnodup hyl hx hyx
      rw [hxy] at hysend
      simp [hsend] at hysend
    have hc : ((l.filter (fun c => !(c.2.send_ok payload))).map
        (fun c => c.1)).contains x.1 = false := by
      cases hq : ((l.filter (fun c => !(c.2.send_ok payload))).map
          (fun c => c.1)).contains x.1
      · rfl
      · exact absurd (List.elem_iff.1 hq) hnot
    rw [hc]
    rfl

/-- `log` never changes the initialized flag, the service name or the id
counter. -/
theorem log_frame (env : LogEnv) (st : SlogXState) (level : LogLevel)
    (args : List Value) (file : String) (line : Nat) (function : String) :
    (SlogX.log env st level args file line function).state.initialized
        = st.initialized
      ∧ (SlogX.log env st level args file line function).state.service_name
        = st.service_name
      ∧ (SlogX.log env st level args file line function).state.next_client_id
        = st.next_client_id := by
  unfold SlogX.log
  by_cases hcond : (!st.initialized || st.clients.isEmpty) = true
  · rw [hcond]
    exact ⟨rfl, rfl, rfl⟩
  · have hcond2 : (!st.initialized || st.clients.isEmpty) = false := by
      cases hq : (!st.initialized || st.clients.isEmpty)
      · rfl
      · exact absurd hq hcond
    rw [hcond2]
    simp only [Bool.false_eq_true, if_false]
    cases hser : env.ser (LogEntry.new level args st.service_name
        (some file) (some line) (some function) env.capture 0).1 with
    | error msg => exact ⟨rfl, rfl, rfl⟩
    | ok payload => exact ⟨rfl, rfl, rfl⟩

/-- An operation sequence with no registration assigns no ids. -/
theorem ids_nil_of_no_connect :
    ∀ (ops : List Op) (st : SlogXState),
      ops.countP isConnect = 0 → (runOps st ops).2 = [] := by
  intro ops
  induction ops with
  | nil => intro st _; rfl
  | cons op ops ih =>
    intro st hcount
    cases op with
    | connect sender =>
      rw [List.countP_cons] at hcount
      simp only [isConnect, reduceIte] at hcount
      exact absurd hcount (by omega)
    | disconnect id =>
      rw [List.countP_cons] at hcount
      simp only [isConnect, reduceIte, Nat.add_zero] at hcount
      exact ih _ hcount
    | startCall name =>
      rw [List.countP_cons] at hcount
      simp only [isConnect, reduceIte, Nat.add_zero] at hcount
      exact ih _ hcount
    | logCall env level args file line function =>
      rw [List.countP_cons] at hcount
      simp only [isConnect, reduceIte, Nat.add_zero] at hcount
      exact ih _ hcount

/-- Over any operation sequence whose registrations fit below the `u64`
wrap-around boundary, every assigned id lies in the window starting at the
initial counter value, and the assigned ids are strictly increasing in
connection order. -/
theorem runOps_bounded :
    ∀ (ops : List Op) (st : SlogXState),
      st.next_client_id + ops.countP isConnect ≤ 2 ^ 64 →
      (∀ id ∈ (runOps st ops).2,
          st.next_client_id ≤ id
            ∧ id < st.next_client_id + ops.countP isConnect)
      ∧ ((runOps st ops).2).Pairwise (· < ·) := by
  intro ops
  induction ops with
  | nil =>
    intro st _
    refine ⟨?_, ?_⟩
    · intro id hid
      simp [runOps] at hid
    · simp [runOps]
  | cons op ops ih =>
    intro st hbound
    cases op with
    | connect sender =>
      have hcnt : (Op.connect sender :: ops).countP isConnect
          = ops.countP isConnect + 1 := by
        rw [List.countP_cons]; simp [isConnect]
      rw [hcnt] at hbound
      have hrun2 : (runOps st (Op.connect sender :: ops)).2
          = st.next_client_id :: (runOps (st.acceptClient sender).1 ops).2 := rfl
      rw [hrun2, hcnt]
      by_cases hwrap : st.next_client_id + 1 < 2 ^ 64
      · have hnext : (st.acceptClient sender).1.next_client_id
            = st.next_client_id + 1 := by
          show (st.next_client_id + 1) % 2 ^ 64 = st.next_client_id + 1
          exact Nat.mod_eq_of_lt hwrap
        obtain ⟨h2, h3⟩ := ih (st.acceptClient sender).1 (by rw [hnext]; omega)
        rw [hnext] at h2
        refine ⟨?_, ?_⟩
        · intro id hid
          rcases List.mem_cons.1 hid with h | h
          · omega
          · have := h2 id h
            omega
        · refine List.Pairwise.cons ?_ h3
          intro y hy
          have := h2 y hy
          omega
      · have hzero : ops.countP isConnect = 0 := by omega
        have hids : (runOps (st.acceptClient sender).1 ops).2 = [] :=
          ids_nil_of_no_connect ops _ hzero
        rw [hids]
        refine ⟨?_, ?_⟩
        · intro id hid
          rcases List.mem_cons.1 hid with h | h
          · omega
          · simp at h
        · exact List.pairwise_singleton _ _
    | disconnect id =>
      have hcnt : (Op.disconnect id :: ops).countP isConnect
          = ops.countP isConnect := by
        rw [List.countP_cons]; simp [isConnect]
      rw [hcnt] at hbound ⊢
      exact ih { st with clients := hmRemove st.clients id } hbound
    | startCall name =>
      have hcnt : (Op.startCall name :: ops).countP isConnect
          = ops.countP isConnect := by
        rw [List.countP_cons]; simp [isConnect]
      rw [hcnt] at hbound ⊢
      exact ih (st.startState name) hbound
    | logCall env level args file line function =>
      have hcnt : (Op.logCall env level args file line function :: ops).countP
          isConnect = ops.countP isConnect := by
        rw [List.countP_cons]; simp [isConnect]
      rw [hcnt] at hbound ⊢
      have hnext := (log_frame env st level args file line function).2.2
      obtain ⟨h2, h3⟩ :=
        ih (SlogX.log env st level args file line function).state
          (by rw [hnext]; exact hbound)
      rw [hnext] at h2
      exact ⟨h2, h3⟩

/-- The ids assigned by a run of `n` registrations from a counter below
the boundary are the counter offsets, reduced modulo `2 ^ 64`. -/
theorem replicate_connect_ids :
    ∀ (n : Nat) (st : SlogXState), st.next_client_id < 2 ^ 64 →
      (runOps st (List.replicate n (Op.connect okClient))).2
        = (List.range n).map (fun i => (st.next_client_id + i) % 2 ^ 64) := by
  intro n
  induction n with
  | zero => intro st _; rfl
  | succ n ih =>
    intro st hlt
    rw [List.replicate_succ]
    have hrun2 : (runOps st
          (Op.connect okClient :: List.replicate n (Op.connect okClient))).2
        = st.next_client_id :: (runOps (st.acceptClient okClient).1
            (List.replicate n (Op.connect okClient))).2 := rfl
    rw [hrun2]
    have hnext : (st.acceptClient okClient).1.next_client_id
        = (st.next_client_id + 1) % 2 ^ 64 := rfl
    rw [ih (st.acceptClient okClient).1
      (by rw [hnext]; exact Nat.mod_lt _ (by positivity))]
    rw [hnext]
    rw [List.range_succ_eq_map, List.map_cons, List.map_map]
    have hfun : (fun i => ((st.next_client_id + 1) % 2 ^ 64 + i) % 2 ^ 64)
        = ((fun i => (st.next_client_id + i) % 2 ^ 64) ∘ Nat.succ) := by
      funext i
      show ((st.next_client_id + 1) % 2 ^ 64 + i) % 2 ^ 64
        = (st.next_client_id + Nat.succ i) % 2 ^ 64
      rw [Nat.mod_add_mod]
      congr 1
      omega
    rw [hfun]
    congr 1
    rw [Nat.add_zero, Nat.mod_eq_of_lt hlt]

/-- C1: for every log call that proceeds past the guard, the record is
serialized exactly once and the identical byte sequence is pushed to every
session registered at broadcast time; any two frames pushed by the call
are byte-identical, and the payload parses back to a record whose `id` is
the one fresh UUID of the call. -/
theorem slogx_c1_broadcast_identical (env : LogEnv) (st : SlogXState)
    (level : LogLevel) (args : List Value) (file : String) (line : Nat)
    (function : String)
    (hinit : st.initialized = true) (hne : st.clients ≠ [])
    (hser : env.ser = fun e => Except.ok (serializeLogEntry e)) :
    (SlogX.log env st level args file line function).serializes = 1
    ∧ ∃ payload,
        (SlogX.log env st level args file line function).pushes
          = st.clients.map (fun c => (c.1, payload))
        ∧ (∀ p ∈ (SlogX.log env st level args file line function).pushes,
            ∀ q ∈ (SlogX.log env st level args file line function).pushes,
              p.2 = q.2)
        ∧ ∃ entry, deserializeLogEntry payload = some entry
            ∧ entry.id = env.capture.uuid := by
  have hlog := log_ok env st level args file line function hinit hne
    (serializeLogEntry (LogEntry.new level args st.service_name
      (some file) (some line) (some function) env.capture 0).1)
    (by rw [hser])
  rw [hlog]
  refine ⟨rfl, serializeLogEntry (LogEntry.new level args st.service_name
    (some file) (some line) (some function) env.capture 0).1, rfl, ?_, ?_⟩
  · intro p hp q hq
    obtain ⟨cp, _, hcp⟩ := List.mem_map.1 hp
    obtain ⟨cq, _, hcq⟩ := List.mem_map.1 hq
    rw [← hcp, ← hcq]
  · exact ⟨(LogEntry.new level args st.service_name (some file) (some line)
      (some function) env.capture 0).1, roundtrip_logEntry _, rfl⟩

/-- Witness for C1 at a concrete environment and a two-session state. -/
theorem slogx_c1_witness :
    (exState2.initialized = true ∧ exState2.clients ≠ []
      ∧ exEnvOk.ser = fun e => Except.ok (serializeLogEntry e))
    ∧ ((SlogX.log exEnvOk exState2 .Info [.str "hello"] "f.rs" 1 "fn").serializes = 1
       ∧ ∃ payload,
           (SlogX.log exEnvOk exState2 .Info [.str "hello"] "f.rs" 1 "fn").pushes
             = exState2.clients.map (fun c => (c.1, payload))
           ∧ (∀ p ∈ (SlogX.log exEnvOk exState2 .Info [.str "hello"] "f.rs" 1 "fn").pushes,
               ∀ q ∈ (SlogX.log exEnvOk exState2 .Info [.str "hello"] "f.rs" 1 "fn").pushes,
                 p.2 = q.2)
           ∧ ∃ entry, deserializeLogEntry payload = some entry
               ∧ entry.id = exEnvOk.capture.uuid) :=
  ⟨⟨rfl, by simp [exState2], rfl⟩,
   slogx_c1_broadcast_identical exEnvOk exState2 .Info [.str "hello"] "f.rs" 1 "fn"
     rfl (by simp [exState2]) rfl⟩

/-- C2: when `log` runs while uninitialized or with an empty registry it
returns at the guard: the state is unchanged, no stack is captured, no
record is serialized and nothing is pushed (and, being a total function of
the model, it cannot throw). -/
theorem slogx_c2_guard_noop (env : LogEnv) (st : SlogXState) (level : LogLevel)
    (args : List Value) (file : String) (line : Nat) (function : String)
    (h : st.initialized = false ∨ st.clients = []) :
    SlogX.log env st level args file line function = ⟨st, 0, 0, []⟩ :=
  log_guard env st level args file line function h

/-- Witness for C2 on the fresh (uninitialized) state. -/
theorem slogx_c2_witness :
    (SlogXState.new.initialized = false ∨ SlogXState.new.clients = [])
    ∧ SlogX.log exEnvOk SlogXState.new .Info [.str "x"] "f.rs" 1 "fn"
      = ⟨SlogXState.new, 0, 0, []⟩ :=
  ⟨Or.inl rfl,
   slogx_c2_guard_noop exEnvOk SlogXState.new .Info [.str "x"] "f.rs" 1 "fn"
     (Or.inl rfl)⟩

/-- C3: in a broadcast (unique registry keys), the sessions kept by the
call are exactly those whose push succeeded: every failing session is
collected and removed within the same call, every succeeding one
remains. -/
theorem slogx_c3_prune_failed (env : LogEnv) (st : SlogXState) (level : LogLevel)
    (args : List Value) (file : String) (line : Nat) (function : String)
    (hinit : st.initialized = true) (hne : st.clients ≠ [])
    (hser : env.ser = fun e => Except.ok (serializeLogEntry e))
    (hnodup : (st.clients.map Prod.fst).Nodup) :
    (SlogX.log env st level args file line function).state.clients
      = st.clients.filter (fun c => c.2.send_ok (serializeLogEntry
          (LogEntry.new level args st.service_name (some file) (some line)
            (some function) env.capture 0).1)) := by
  have hlog := log_ok env st level args file line function hinit hne
    (serializeLogEntry (LogEntry.new level args st.service_name
      (some file) (some line) (some function) env.capture 0).1)
    (by rw [hser])
  rw [hlog]
  exact prune_eq_filter _ _ hnodup

/-- Witness for C3 on a state with one live and one failing session. -/
theorem slogx_c3_witness :
    (exStateMixed.initialized = true ∧ exStateMixed.clients ≠ []
      ∧ exEnvOk.ser = (fun e => Except.ok (serializeLogEntry e))
      ∧ (exStateMixed.clients.map Prod.fst).Nodup)
    ∧ (SlogX.log exEnvOk exStateMixed .Warn [.num 7] "f.rs" 2 "fn").state.clients
      = exStateMixed.clients.filter (fun c => c.2.send_ok (serializeLogEntry
          (LogEntry.new .Warn [.num 7] exStateMixed.service_name (some "f.rs")
            (some 2) (some "fn") exEnvOk.capture 0).1)) :=
  ⟨⟨rfl, by simp [exStateMixed], rfl, by decide⟩,
   slogx_c3_prune_failed exEnvOk exStateMixed .Warn [.num 7] "f.rs" 2 "fn"
     rfl (by simp [exStateMixed]) rfl (by decide)⟩

/-- C4 counterexample: the session-id counter is a `u64`, so after
`2 ^ 64 + 1` registrations from the initial state the wrapped counter
reassigns id `0`; the assigned ids of that concrete operation sequence are
neither strictly increasing nor pairwise distinct, refuting the claim for
every insertion sequence. -/
theorem slogx_c4_counterexample :
    ¬ (((runOps SlogXState.new
          (List.replicate (2 ^ 64 + 1) (Op.connect okClient))).2).Pairwise (· < ·)
       ∧ ((runOps SlogXState.new
          (List.replicate (2 ^ 64 + 1) (Op.connect okClient))).2).Pairwise (· ≠ ·)) := by
  intro hcl
  obtain ⟨_, hne⟩ := hcl
  rw [replicate_connect_ids (2 ^ 64 + 1) SlogXState.new
    (by show (0 : Nat) < 2 ^ 64; positivity)] at hne
  have h0 : (0 : Nat) ∈ List.range (2 ^ 64 + 1) := List.mem_range.2 (by omega)
  have h1 : (2 ^ 64 : Nat) ∈ List.range (2 ^ 64 + 1) := List.mem_range.2 (by omega)
  have heq : (fun i => (SlogXState.new.next_client_id + i) % 2 ^ 64) 0
      = (fun i => (SlogXState.new.next_client_id + i) % 2 ^ 64) (2 ^ 64) := by
    show (0 + 0) % 2 ^ 64 = (0 + 2 ^ 64) % 2 ^ 64
    simp
  have hcontra : (0 : Nat) = 2 ^ 64 :=
    List.inj_on_of_nodup_map hne h0 h1 heq
  have : (0 : Nat) < 2 ^ 64 := by positivity
  omega

/-- C4 (amended): a session registration assigns the current counter value
as the session id, stores the sender under it and increments the counter
modulo `2 ^ 64` (the `u64` wrap-around); over any operation sequence from
the initial state containing at most `2 ^ 64` registrations, the assigned
ids are strictly increasing, hence pairwise distinct (never reused). -/
theorem slogx_c4_session_ids :
    (∀ (st : SlogXState) (sender : Client),
        (st.acceptClient sender).2 = st.next_client_id
        ∧ (st.acceptClient sender).1.next_client_id
            = (st.next_client_id + 1) % 2 ^ 64
        ∧ hmGet (st.acceptClient sender).1.clients st.next_client_id = some sender)
    ∧ ∀ ops : List Op, ops.countP isConnect ≤ 2 ^ 64 →
        ((runOps SlogXState.new ops).2).Pairwise (· < ·)
        ∧ ((runOps SlogXState.new ops).2).Pairwise (· ≠ ·) := by
  constructor
  · intro st sender
    refine ⟨rfl, rfl, ?_⟩
    unfold hmGet SlogXState.acceptClient hmInsert
    simp
  · intro ops hops
    have h := (runOps_bounded ops SlogXState.new
      (by show 0 + ops.countP isConnect ≤ 2 ^ 64; omega)).2
    exact ⟨h, h.imp (fun hlt => Nat.ne_of_lt hlt)⟩

/-- Witness for the amended C4 on a concrete three-registration
sequence. -/
theorem slogx_c4_witness :
    (List.replicate 3 (Op.connect okClient)).countP isConnect ≤ 2 ^ 64
    ∧ (((runOps SlogXState.new
          (List.replicate 3 (Op.connect okClient))).2).Pairwise (· < ·)
       ∧ ((runOps SlogXState.new
          (List.replicate 3 (Op.connect okClient))).2).Pairwise (· ≠ ·)) :=
  ⟨by decide,
   slogx_c4_session_ids.2 (List.replicate 3 (Op.connect okClient)) (by decide)⟩

/-- C5: the stack filter walks the captured symbols innermost first,
skips them while they are library-internal, and from the first
non-internal symbol keeps that one and every later one (internal or not);
when the filter keeps nothing the result falls back to the full debug
trace of the capture. -/
theorem slogx_c5_stack_filter (bt : List StackFrame) (fallback : String) :
    build_clean_stacktrace bt fallback
      = if (bt.flatten.dropWhile symbolInternal).isEmpty then fallback
        else String.intercalate "\n"
          ((bt.flatten.dropWhile symbolInternal).map symbolLine) :=
  build_clean_stacktrace_eq bt fallback

/-- C6: the record builder calls the stack capturer exactly once for
every level and input, so the built record's `stacktrace` is always
present, and the metadata `lang` is the fixed constant `"rust"`. -/
theorem slogx_c6_builder (level : LogLevel) (args : List Value)
    (service_name : String) (file : Option String) (line : Option Nat)
    (function : Option String) (env : CaptureEnv) (k : Nat) :
    (LogEntry.new level args service_name file line function env k).2 = k + 1
    ∧ ((LogEntry.new level args service_name file line function env k).1).stacktrace
        = some (build_clean_stacktrace env.stack env.debugTrace)
    ∧ ((LogEntry.new level args service_name file line function env k).1).metadata.lang
        = "rust" :=
  ⟨rfl, rfl, rfl⟩

/-- C7: if serialization of the built record fails, `log` sends nothing
and leaves the whole shared state (registry, counter, service name,
initialized flag) unchanged. -/
theorem slogx_c7_ser_failure (env : LogEnv) (st : SlogXState) (level : LogLevel)
    (args : List Value) (file : String) (line : Nat) (function : String)
    (msg : String)
    (hser : env.ser (LogEntry.new level args st.service_name (some file)
        (some line) (some function) env.capture 0).1 = .error msg) :
    (SlogX.log env st level args file line function).state = st
    ∧ (SlogX.log env st level args file line function).pushes = [] := by
  by_cases hinit : st.initialized = true
  · by_cases hne : st.clients = []
    · rw [log_guard env st level args file line function (Or.inr hne)]
      exact ⟨rfl, rfl⟩
    · rw [log_err env st level args file line function hinit hne msg hser]
      exact ⟨rfl, rfl⟩
  · have hfalse : st.initialized = false := by
      cases h : st.initialized
      · rfl
      · exact absurd h hinit
    rw [log_guard env st level args file line function (Or.inl hfalse)]
    exact ⟨rfl, rfl⟩

/-- Witness for C7 with an always-failing serializer on a two-session
state. -/
theorem slogx_c7_witness :
    (exEnvErr.ser (LogEntry.new .Info [.str "x"] exState2.service_name
        (some "f.rs") (some 1) (some "fn") exEnvErr.capture 0).1
      = .error "boom")
    ∧ ((SlogX.log exEnvErr exState2 .Info [.str "x"] "f.rs" 1 "fn").state = exState2
       ∧ (SlogX.log exEnvErr exState2 .Info [.str "x"] "f.rs" 1 "fn").pushes = []) :=
  ⟨rfl,
   slogx_c7_ser_failure exEnvErr exState2 .Info [.str "x"] "f.rs" 1 "fn" "boom" rfl⟩

/-- C9 counterexample: a symbol with no resolved name, file or line
yields the line with the line field degraded to `0`, not to the
placeholder `<unknown>` the claim states for all fields. -/
theorem slogx_c9_counterexample :
    build_clean_stacktrace [[⟨none, none, none⟩]] "full"
        = "  at <unknown> (<unknown>:0)"
      ∧ build_clean_stacktrace [[⟨none, none, none⟩]] "full"
        ≠ "  at <unknown> (<unknown>:<unknown>)" := by
  constructor
  · rfl
  · decide

/-- C9 (amended): stack capture is a total function into strings; its
result is either the fallback trace or the newline-join of lines, each
formatted from its symbol with an unresolved name or file degrading to
`<unknown>` and an unresolved line number degrading to `0`. -/
theorem slogx_c9_line_format (bt : List StackFrame) (fallback : String) :
    build_clean_stacktrace bt fallback = fallback
    ∨ build_clean_stacktrace bt fallback
        = String.intercalate "\n" ((bt.flatten.dropWhile symbolInternal).map
            (fun s => "  at " ++ s.name.getD "<unknown>" ++ " ("
              ++ s.filename.getD "<unknown>" ++ ":"
              ++ String.mk (renderNat (s.lineno.getD 0)) ++ ")")) := by
  rw [build_clean_stacktrace_eq]
  cases h : (bt.flatten.dropWhile symbolInternal).isEmpty
  · right
    simp only [h, Bool.false_eq_true, if_false]
    rfl
  · left
    simp only [h, if_true]

/-- C10: whatever its outcome, `log` never changes the initialized flag,
the service name or the id counter; its only state change is removing
exactly the sessions whose send failed in that call (given unique
registry keys). -/
theorem slogx_c10_frame (env : LogEnv) (st : SlogXState) (level : LogLevel)
    (args : List Value) (file : String) (line : Nat) (function : String)
    (hnodup : (st.clients.map Prod.fst).Nodup) :
    (SlogX.log env st level args file line function).state.initialized
        = st.initialized
    ∧ (SlogX.log env st level args file line function).state.service_name
        = st.service_name
    ∧ (SlogX.log env st level args file line function).state.next_client_id
        = st.next_client_id
    ∧ ((SlogX.log env st level args file line function).state.clients = st.clients
        ∧ (SlogX.log env st level args file line function).pushes = []
      ∨ ∃ payload,
          (SlogX.log env st level args file line function).state.clients
            = st.clients.filter (fun c => c.2.send_ok payload)
          ∧ (SlogX.log env st level args file line function).pushes
            = st.clients.map (fun c => (c.1, payload))) := by
  obtain ⟨hf1, hf2, hf3⟩ := log_frame env st level args file line function
  refine ⟨hf1, hf2, hf3, ?_⟩
  by_cases hinit : st.initialized = true
  · by_cases hne : st.clients = []
    · left
      rw [log_guard env st level args file line function (Or.inr hne)]
      exact ⟨rfl, rfl⟩
    · cases hser : env.ser (LogEntry.new level args st.service_name (some file)
          (some line) (some function) env.capture 0).1 with
      | error msg =>
        left
        rw [log_err env st level args file line function hinit hne msg hser]
        exact ⟨rfl, rfl⟩
      | ok payload =>
        right
        refine ⟨payload, ?_, ?_⟩
        · rw [log_ok env st level args file line function hinit hne payload hser]
          exact prune_eq_filter _ _ hnodup
        · rw [log_ok env st level args file line function hinit hne payload hser]
  · have hfalse : st.initialized = false := by
      cases h : st.initialized
      · rfl
      · exact absurd h hinit
    left
    rw [log_guard env st level args file line function (Or.inl hfalse)]
    exact ⟨rfl, rfl⟩

/-- Witness for C10 on a state with one live and one failing session. -/
theorem slogx_c10_witness :
    ((exStateMixed.clients.map Prod.fst).Nodup)
    ∧ ((SlogX.log exEnvOk exStateMixed .Error [.null] "g.rs" 3 "gn").state.initialized
          = exStateMixed.initialized
       ∧ (SlogX.log exEnvOk exStateMixed .Error [.null] "g.rs" 3 "gn").state.service_name
          = exStateMixed.service_name
       ∧ (SlogX.log exEnvOk exStateMixed .Error [.null] "g.rs" 3 "gn").state.next_client_id
          = exStateMixed.next_client_id
       ∧ ((SlogX.log exEnvOk exStateMixed .Error [.null] "g.rs" 3 "gn").state.clients
            = exStateMixed.clients
           ∧ (SlogX.log exEnvOk exStateMixed .Error [.null] "g.rs" 3 "gn").pushes = []
         ∨ ∃ payload,
             (SlogX.log exEnvOk exStateMixed .Error [.null] "g.rs" 3 "gn").state.clients
               = exStateMixed.clients.filter (fun c => c.2.send_ok payload)
             ∧ (SlogX.log exEnvOk exStateMixed .Error [.null] "g.rs" 3 "gn").pushes
               = exStateMixed.clients.map (fun c => (c.1, payload)))) :=
  ⟨by decide,
   slogx_c10_frame exEnvOk exStateMixed .Error [.null] "g.rs" 3 "gn" (by decide)⟩
